import Mathlib

/-!
Verification development for the client-side HITL session driver
(`frontend/app.js`, the SSE/LangGraph-server variant, and
`frontend_ls/app.js`, the non-streaming LangServe variant).

The JavaScript sources are shallowly embedded: JSON-shaped values become the
inductive `JVal`; each source function becomes a Lean function of the same
name; the stateful UI driver becomes explicit state passing over a record of
the mutable fields the source closes over (`threadId`, the persisted storage
slot, `uiState`, the log list, ...).  Network and platform effects
(`fetch`, `crypto.randomUUID`, `localStorage`, `JSON.parse`) are supplied as
explicit environment parameters; instrumentation fields (`lastReqTid`,
`polls`) record the observable requests a run makes.
-/

/-- JSON-shaped JavaScript values.  Absent fields / `undefined` are
represented by `Option.none` at use sites, not by a constructor.  Numbers are
modelled as integers (no claim involves numeric payloads).  Objects are
association lists with (as in JSON) pairwise distinct keys. -/
inductive JVal where
  | jnull
  | jbool (b : Bool)
  | jnum (n : Int)
  | jstr (s : String)
  | jarr (xs : List JVal)
  | jobj (fields : List (String × JVal))

/-- JavaScript truthiness of a (defined) value. -/
def truthy : JVal → Bool
  | .jnull => false
  | .jbool b => b
  | .jnum n => n != 0
  | .jstr s => s ≠ ""
  | .jarr _ => true
  | .jobj _ => true

/-- `typeof v === "object"` for a defined, non-null-guarded value: arrays and
objects.  (`typeof null` is also `"object"`, but every source use first
guards with `v && ...`; callers below test `truthy` where the source does.) -/
def isObjType : JVal → Bool
  | .jarr _ => true
  | .jobj _ => true
  | _ => false

/-- First binding of a key in an association list. -/
def lookupField : List (String × JVal) → String → Option JVal
  | [], _ => none
  | (k, v) :: rest, key => if k = key then some v else lookupField rest key

/-- Property access `v[key]`: `none` models `undefined` (including property
access on primitives, which yields `undefined` in JavaScript). -/
def getField : JVal → String → Option JVal
  | .jobj fs, key => lookupField fs key
  | _, _ => none

/-- ECMAScript whitespace recognized by `String.prototype.trim` (core set:
space, tab, LF, CR, VT, FF; the rare Unicode space code points are not
modelled — no claim involves them). -/
def isJsSpace (c : Char) : Bool :=
  c = ' ' || c = '\t' || c = '\n' || c = '\r' || c = '\x0b' || c = '\x0c'

/-- `String.prototype.trim` on a character list. -/
def jsTrim (s : List Char) : List Char :=
  ((s.dropWhile isJsSpace).reverse.dropWhile isJsSpace).reverse

/-- `String.prototype.trim` on a `String`. -/
def jsTrimS (s : String) : String :=
  String.mk (jsTrim s.toList)

mutual
/-- JavaScript `String(v)` coercion.  `inArr` marks elements being joined by
`Array.prototype.toString` (where `null` renders as the empty string). -/
def jsString (inArr : Bool) : JVal → String
  | .jnull => if inArr then "" else "null"
  | .jbool b => if b then "true" else "false"
  | .jnum n => toString n
  | .jstr s => s
  | .jobj _ => "[object Object]"
  | .jarr xs => jsStringList xs

/-- Elements of an array joined with `","`, as `Array.prototype.toString`. -/
def jsStringList : List JVal → String
  | [] => ""
  | [x] => jsString true x
  | x :: y :: xs => jsString true x ++ "," ++ jsStringList (y :: xs)
end

mutual
/-- `JSON.stringify(v, null, 2)` as used for log details.  The embedding
serializes compactly and does not escape string contents; no claim depends on
the serialized text, only on which log entries exist. -/
def jsonStringify : JVal → String
  | .jnull => "null"
  | .jbool b => if b then "true" else "false"
  | .jnum n => toString n
  | .jstr s => "\"" ++ s ++ "\""
  | .jarr xs => "[" ++ jsonStringifyList xs ++ "]"
  | .jobj fs => "\x7b" ++ jsonStringifyFields fs ++ "\x7d"

def jsonStringifyList : List JVal → String
  | [] => ""
  | [x] => jsonStringify x
  | x :: y :: xs => jsonStringify x ++ "," ++ jsonStringifyList (y :: xs)

def jsonStringifyFields : List (String × JVal) → String
  | [] => ""
  | [(k, v)] => "\"" ++ k ++ "\":" ++ jsonStringify v
  | (k, v) :: f :: fs => "\"" ++ k ++ "\":" ++ jsonStringify v ++ "," ++ jsonStringifyFields (f :: fs)
end

/-- `toTextMaybe(x)`: strings pass through, other values are JSON-rendered
(`frontend/app.js`, `toTextMaybe`). -/
def toTextMaybe : Option JVal → String
  | none => ""
  | some (.jstr s) => s
  | some v => jsonStringify v

/-- `truncate(s, n)` from `frontend/app.js`: cap a string at `n` characters
with an ellipsis. -/
def truncateStr (s : String) (n : Nat) : String :=
  if s.length ≤ n then s else String.mk (s.toList.take n) ++ "…"

/-! ## Interrupt Extractor (`extractInterruptPayload`, frontend/app.js 395-424) -/

/-- The acceptance test inside the candidate loop:
`payload.kind === "approval_request" || payload.question || payload.analysis_preview`. -/
def isApprovalLike (p : JVal) : Bool :=
  (match getField p "kind" with
   | some (.jstr s) => s = "approval_request"
   | _ => false)
  || (match getField p "question" with
      | some v => truthy v
      | none => false)
  || (match getField p "analysis_preview" with
      | some v => truthy v
      | none => false)

/-- The candidate list
`[obj.__interrupt__, obj?.values?.__interrupt__, obj?.interrupts, obj?.values?.interrupts].filter(Boolean)`. -/
def interruptCandidates (obj : JVal) : List JVal :=
  (([getField obj "__interrupt__",
     (getField obj "values").bind (fun v => getField v "__interrupt__"),
     getField obj "interrupts",
     (getField obj "values").bind (fun v => getField v "interrupts")]).filterMap id).filter truthy

/-- The `for (const c of candidates)` loop body: take the first element of an
array candidate, unwrap one `value` indirection (`first?.value ?? first`),
and accept the first payload passing `isApprovalLike`. -/
def scanCandidates : List JVal → Option JVal
  | [] => none
  | c :: rest =>
    match (match c with | .jarr xs => xs.head? | other => some other) with
    | none => scanCandidates rest
    | some f =>
      if truthy f then
        match (match getField f "value" with
               | some .jnull => f
               | some v => v
               | none => f) with
        | payload =>
          if truthy payload then
            if isApprovalLike payload then some payload else scanCandidates rest
          else scanCandidates rest
      else scanCandidates rest

/-- `String(obj.status || "") === "interrupted"`. -/
def statusIsInterrupted (obj : JVal) : Bool :=
  match getField obj "status" with
  | some v => truthy v && (jsString false v = "interrupted")
  | none => false

/-- The synthetic fallback interrupt built when `status` is `"interrupted"`
but no payload qualifies (frontend/app.js 420). -/
def syntheticInterrupt : JVal :=
  .jobj [("kind", .jstr "approval_request"),
         ("question", .jstr "Approve?"),
         ("options", .jarr [.jstr "y", .jstr "retry", .jstr "n"]),
         ("analysis_preview", .jarr [])]

/-- `extractInterruptPayload(obj)` (frontend/app.js 395-424). -/
def extractInterruptPayload (obj : JVal) : Option JVal :=
  if truthy obj then
    match scanCandidates (interruptCandidates obj) with
    | some payload => some payload
    | none =>
      if statusIsInterrupted obj then some syntheticInterrupt else none
  else none

/-! ## Snapshot extractors (frontend/app.js 426-439) -/

/-- `extractFinalReportFromThread(threadObj)` (frontend/app.js 426-433). -/
def extractFinalReportFromThread (threadObj : JVal) : String :=
  match getField threadObj "values" with
  | some v =>
    if truthy v then
      match getField v "final_report" with
      | some (.jstr s) => if jsTrimS s ≠ "" then s else ""
      | _ => ""
    else ""
  | none => ""

/-- `extractCurrentStepFromThread(threadObj)` (frontend/app.js 435-439):
`String(values.current_step || "")`. -/
def extractCurrentStepFromThread (threadObj : JVal) : String :=
  match getField threadObj "values" with
  | some v =>
    if truthy v then
      match getField v "current_step" with
      | some cs => if truthy cs then jsString false cs else ""
      | none => ""
    else ""
  | none => ""

/-! ## Frame Decoder (`parseSseFrame` frontend/app.js 442-463, and the
buffer loop of `runStream`, frontend/app.js 504-539) -/

/-- One left-to-right pass of `.replace(/\r\n/g, "\n")`: each non-overlapping
`"\r\n"` becomes `"\n"`; the scan resumes after the replacement. -/
def normalizeCRLF : List Char → List Char
  | [] => []
  | [c] => [c]
  | c1 :: c2 :: rest =>
    if c1 = '\r' ∧ c2 = '\n' then '\n' :: normalizeCRLF rest
    else c1 :: normalizeCRLF (c2 :: rest)

/-- `buffer.indexOf("\n\n")` split: `some (before, after)` at the first
occurrence (`after` drops both newlines, as `buffer.slice(sepIndex + 2)`). -/
def breakOnSep : List Char → Option (List Char × List Char)
  | [] => none
  | [_] => none
  | c1 :: c2 :: rest =>
    if c1 = '\n' ∧ c2 = '\n' then some ([], rest)
    else (breakOnSep (c2 :: rest)).map fun pr => (c1 :: pr.1, pr.2)

/-- `line.split("\n")` (JavaScript `String.prototype.split` with a one-char
separator; always returns at least one piece). -/
def splitOnNl : List Char → List (List Char)
  | [] => [[]]
  | c :: rest =>
    if c = '\n' then [] :: splitOnNl rest
    else
      match splitOnNl rest with
      | l :: ls => (c :: l) :: ls
      | [] => [[c]]

/-- Accumulator for the line loop of `parseSseFrame`. -/
structure FrameAcc where
  eventName : List Char
  dataLines : List (List Char)
  idField : List Char

/-- The `for (const line of lines)` loop of `parseSseFrame`: skip empty and
comment lines; `event:` and `id:` overwrite, `data:` lines accumulate. -/
def parseLines : List (List Char) → FrameAcc → FrameAcc
  | [], acc => acc
  | l :: rest, acc =>
    parseLines rest
      (if l = [] then acc
       else if l.head? = some ':' then acc
       else if "event:".toList.isPrefixOf l then { acc with eventName := jsTrim (l.drop 6) }
       else if "data:".toList.isPrefixOf l then { acc with dataLines := acc.dataLines ++ [jsTrim (l.drop 5)] }
       else if "id:".toList.isPrefixOf l then { acc with idField := jsTrim (l.drop 3) }
       else acc)

/-- A decoded Protocol Frame: `{id, event, data}` where `data` is the parsed
JSON value or the raw joined text when parsing fails (or the text is empty). -/
structure SseFrame where
  id : String
  event : String
  dataRaw : String
  data : JVal ⊕ String

/-- `parseSseFrame(frameText)` (frontend/app.js 442-463), parameterized by
the platform's `JSON.parse` attempt (`none` models a parse failure). -/
def parseSseFrame (jsonParse : String → Option JVal) (frameText : List Char) : SseFrame :=
  let normalized := normalizeCRLF frameText
  let acc := parseLines (splitOnNl normalized) ⟨[], [], []⟩
  let dataRaw := String.mk (List.intercalate ['\n'] acc.dataLines)
  let data : JVal ⊕ String :=
    if dataRaw = "" then .inr dataRaw
    else match jsonParse dataRaw with
      | some v => .inl v
      | none => .inr dataRaw
  ⟨String.mk acc.idField, String.mk acc.eventName, dataRaw, data⟩

/-- The inner `while ((sepIndex = buffer.indexOf("\n\n")) !== -1)` loop of
`runStream`: extract complete blocks, trim each, drop empty ones, parse the
rest, and keep the trailing incomplete block buffered.  Structured with explicit
fuel (any fuel at least the buffer length is enough; `runStream` below always
supplies it) so that the definition evaluates by `rfl`. -/
def extractLoopF (jsonParse : String → Option JVal) : Nat → List Char → List SseFrame × List Char
  | 0, s => ([], s)
  | fuel + 1, s =>
    match breakOnSep s with
    | none => ([], s)
    | some pr =>
      let next := extractLoopF jsonParse fuel pr.2
      if jsTrim pr.1 = [] then next
      else (parseSseFrame jsonParse (jsTrim pr.1) :: next.1, next.2)

/-- The per-chunk frame extraction with sufficient fuel. -/
def extractLoop (jsonParse : String → Option JVal) (s : List Char) : List SseFrame × List Char :=
  extractLoopF jsonParse s.length s

/-- One chunk arrival in `runStream`: append to the buffer, re-normalize the
whole buffer (`buffer = buffer.replace(/\r\n/g, "\n")`), then drain complete
frames. -/
def feedChunk (jsonParse : String → Option JVal) (buf chunk : List Char) :
    List SseFrame × List Char :=
  extractLoop jsonParse (normalizeCRLF (buf ++ chunk))

/-- The read loop of `runStream` (frontend/app.js 508-527) over a list of
decoded text chunks: returns the frames delivered to `onEvent`, in order, and
the final unconsumed buffer.  `TextDecoder.decode(…, {stream:true})`
reassembles code points split across byte chunks, so text chunks faithfully
represent arbitrary byte chunkings. -/
def runStream (jsonParse : String → Option JVal) :
    List Char → List (List Char) → List SseFrame × List Char
  | buf, [] => ([], buf)
  | buf, c :: cs =>
    let fed := feedChunk jsonParse buf c
    let rest := runStream jsonParse fed.2 cs
    (fed.1 ++ rest.1, rest.2)

/-! ## Frame Decoder lemmas -/

theorem breakOnSep_some_length : ∀ s pr, breakOnSep s = some pr → pr.2.length < s.length := by
  intro s
  induction s using breakOnSep.induct with
  | case1 => intro pr h; simp [breakOnSep] at h
  | case2 c => intro pr h; simp [breakOnSep] at h
  | case3 c1 c2 rest hif =>
    intro pr h
    simp [breakOnSep, if_pos hif] at h
    subst h
    simp
    omega
  | case4 c1 c2 rest hif ih =>
    intro pr h
    simp only [breakOnSep, if_neg hif, Option.map_eq_some'] at h
    obtain ⟨q, hq, hpr⟩ := h
    have := ih q hq
    subst hpr
    simp at this ⊢
    omega

theorem breakOnSep_append : ∀ a pr (b : List Char), breakOnSep a = some pr →
    breakOnSep (a ++ b) = some (pr.1, pr.2 ++ b) := by
  intro a
  induction a using breakOnSep.induct with
  | case1 => intro pr b h; simp [breakOnSep] at h
  | case2 c => intro pr b h; simp [breakOnSep] at h
  | case3 c1 c2 rest hif =>
    intro pr b h
    simp [breakOnSep, if_pos hif] at h ⊢
    subst h
    simp
  | case4 c1 c2 rest hif ih =>
    intro pr b h
    simp only [breakOnSep, if_neg hif, Option.map_eq_some'] at h
    obtain ⟨q, hq, hpr⟩ := h
    have := ih q b hq
    simp only [List.cons_append] at *
    simp only [breakOnSep, if_neg hif, this, Option.map_some']
    subst hpr
    simp

theorem breakOnSep_rest_suffix : ∀ s pr, breakOnSep s = some pr → pr.2 <:+ s := by
  intro s
  induction s using breakOnSep.induct with
  | case1 => intro pr h; simp [breakOnSep] at h
  | case2 c => intro pr h; simp [breakOnSep] at h
  | case3 c1 c2 rest hif =>
    intro pr h
    simp [breakOnSep, if_pos hif] at h
    subst h
    exact (List.suffix_cons c2 rest).trans (List.suffix_cons c1 _)
  | case4 c1 c2 rest hif ih =>
    intro pr h
    simp only [breakOnSep, if_neg hif, Option.map_eq_some'] at h
    obtain ⟨q, hq, hpr⟩ := h
    subst hpr
    exact (ih q hq).trans (List.suffix_cons c1 _)


theorem extractLoopF_congr (jp : String → Option JVal) :
    ∀ f1 f2 s, s.length ≤ f1 → s.length ≤ f2 →
      extractLoopF jp f1 s = extractLoopF jp f2 s := by
  intro f1
  induction f1 with
  | zero =>
    intro f2 s h1 _
    have hs : s = [] := List.eq_nil_of_length_eq_zero (Nat.le_zero.mp h1)
    subst hs
    cases f2 with
    | zero => rfl
    | succ f2 => simp [extractLoopF, breakOnSep]
  | succ f1 ih =>
    intro f2 s h1 h2
    cases f2 with
    | zero =>
      have hs : s = [] := List.eq_nil_of_length_eq_zero (Nat.le_zero.mp h2)
      subst hs
      simp [extractLoopF, breakOnSep]
    | succ f2 =>
      simp only [extractLoopF]
      cases h : breakOnSep s with
      | none => rfl
      | some pr =>
        have hlt := breakOnSep_some_length s pr h
        dsimp only
        rw [ih f2 pr.2 (by omega) (by omega)]

theorem extractLoop_eq (jp : String → Option JVal) (s : List Char) :
    extractLoop jp s =
      match breakOnSep s with
      | none => ([], s)
      | some pr =>
        let next := extractLoop jp pr.2
        if jsTrim pr.1 = [] then next
        else (parseSseFrame jp (jsTrim pr.1) :: next.1, next.2) := by
  cases h : breakOnSep s with
  | none =>
    cases s with
    | nil => rfl
    | cons c rest =>
      simp only [extractLoop, List.length_cons, extractLoopF, h]
  | some pr =>
    have hlt := breakOnSep_some_length s pr h
    cases s with
    | nil => simp [breakOnSep] at h
    | cons c rest =>
      simp only [extractLoop, List.length_cons, extractLoopF, h]
      rw [extractLoopF_congr jp rest.length pr.2.length pr.2 (by simp at hlt; omega) le_rfl]

theorem extractLoop_snd_break (jp : String → Option JVal) (s : List Char) :
    breakOnSep (extractLoop jp s).2 = none := by
  suffices H : ∀ n (s : List Char), s.length ≤ n → breakOnSep (extractLoop jp s).2 = none from
    H s.length s le_rfl
  intro n
  induction n with
  | zero =>
    intro s hs
    have hn : s = [] := List.eq_nil_of_length_eq_zero (Nat.le_zero.mp hs)
    subst hn
    rw [extractLoop_eq]
    rfl
  | succ n ih =>
    intro s hs
    rw [extractLoop_eq]
    cases h : breakOnSep s with
    | none => exact h
    | some pr =>
      have hlt := breakOnSep_some_length s pr h
      have hrec := ih pr.2 (by omega)
      dsimp only
      split
      · exact hrec
      · exact hrec

theorem extractLoop_snd_suffix (jp : String → Option JVal) (s : List Char) :
    (extractLoop jp s).2 <:+ s := by
  suffices H : ∀ n (s : List Char), s.length ≤ n → (extractLoop jp s).2 <:+ s from
    H s.length s le_rfl
  intro n
  induction n with
  | zero =>
    intro s hs
    have hn : s = [] := List.eq_nil_of_length_eq_zero (Nat.le_zero.mp hs)
    subst hn
    rw [extractLoop_eq]
    rfl
  | succ n ih =>
    intro s hs
    rw [extractLoop_eq]
    cases h : breakOnSep s with
    | none => exact List.suffix_refl s
    | some pr =>
      have hlt := breakOnSep_some_length s pr h
      have hsuf := breakOnSep_rest_suffix s pr h
      have hrec := ih pr.2 (by omega)
      dsimp only
      split
      · exact hrec.trans hsuf
      · exact hrec.trans hsuf

theorem extractLoop_append (jp : String → Option JVal) (a b : List Char) :
    extractLoop jp (a ++ b) =
      ((extractLoop jp a).1 ++ (extractLoop jp ((extractLoop jp a).2 ++ b)).1,
       (extractLoop jp ((extractLoop jp a).2 ++ b)).2) := by
  suffices H : ∀ n (a : List Char), a.length ≤ n → ∀ b,
      extractLoop jp (a ++ b) =
        ((extractLoop jp a).1 ++ (extractLoop jp ((extractLoop jp a).2 ++ b)).1,
         (extractLoop jp ((extractLoop jp a).2 ++ b)).2) from
    H a.length a le_rfl b
  intro n
  induction n with
  | zero =>
    intro a ha b
    have hn : a = [] := List.eq_nil_of_length_eq_zero (Nat.le_zero.mp ha)
    subst hn
    have h0 : extractLoop jp ([] : List Char) = ([], []) := rfl
    rw [List.nil_append, h0]
    simp
  | succ n ih =>
    intro a ha b
    cases h : breakOnSep a with
    | none =>
      have ha0 : extractLoop jp a = ([], a) := by rw [extractLoop_eq, h]
      rw [ha0]
      simp
    | some pr =>
      have hlt := breakOnSep_some_length a pr h
      have hab : breakOnSep (a ++ b) = some (pr.1, pr.2 ++ b) := breakOnSep_append a pr b h
      have ihr := ih pr.2 (by omega) b
      rw [extractLoop_eq jp (a ++ b), hab, extractLoop_eq jp a, h]
      dsimp only
      split
      · exact ihr
      · rw [ihr]
        simp

theorem normalizeCRLF_of_noCR : ∀ s : List Char, '\r' ∉ s → normalizeCRLF s = s := by
  intro s
  induction s using normalizeCRLF.induct with
  | case1 => intro _; rfl
  | case2 c => intro _; rfl
  | case3 c1 c2 rest hif ih =>
    intro h
    exact absurd (hif.1 ▸ List.mem_cons_self c1 _) h
  | case4 c1 c2 rest hif ih =>
    intro h
    simp only [normalizeCRLF, if_neg hif]
    rw [ih (fun hm => h (List.mem_cons_of_mem _ hm))]

theorem runStream_eq_extractLoop (jp : String → Option JVal) :
    ∀ (cs : List (List Char)) (buf : List Char), '\r' ∉ buf → (∀ c ∈ cs, '\r' ∉ c) →
      breakOnSep buf = none →
      runStream jp buf cs = extractLoop jp (buf ++ cs.flatten) := by
  intro cs
  induction cs with
  | nil =>
    intro buf hb _ hbrk
    simp only [runStream, List.flatten_nil, List.append_nil]
    rw [extractLoop_eq, hbrk]
  | cons c cs ih =>
    intro buf hb hcs hbrk
    have hc : '\r' ∉ c := hcs c (List.mem_cons_self c cs)
    have hbc : '\r' ∉ buf ++ c := by
      intro hm
      rcases List.mem_append.mp hm with hm | hm
      · exact hb hm
      · exact hc hm
    have hfeed : feedChunk jp buf c = extractLoop jp (buf ++ c) := by
      simp only [feedChunk, normalizeCRLF_of_noCR _ hbc]
    have hsnd : (extractLoop jp (buf ++ c)).2 <:+ buf ++ c := extractLoop_snd_suffix jp _
    have hb2 : '\r' ∉ (extractLoop jp (buf ++ c)).2 := fun hm => hbc (hsnd.subset hm)
    have hbrk2 : breakOnSep (extractLoop jp (buf ++ c)).2 = none := extractLoop_snd_break jp _
    have ihr := ih (extractLoop jp (buf ++ c)).2 hb2
      (fun d hd => hcs d (List.mem_cons_of_mem c hd)) hbrk2
    simp only [runStream, hfeed, ihr, List.flatten_cons]
    rw [show buf ++ (c ++ cs.flatten) = (buf ++ c) ++ cs.flatten by simp,
        extractLoop_append jp (buf ++ c) cs.flatten]

/-! ## Event Classifier (frontend/app.js 541-716) -/

/-- Run phases (`uiState` in both variants; labels per the sources). -/
inductive UiState where
  | idle
  | starting
  | waiting_approval
  | resuming
  | done
  | error
deriving DecidableEq

/-- The `NODE_LABEL` map (frontend/app.js 38-46). -/
def NODE_LABEL : String → Option String := fun k =>
  [("research_agent", "Research (research_agent)"),
   ("tools", "Search (tools)"),
   ("summary_agent", "Summary (summary_agent)"),
   ("market_agent", "Market analysis (market_agent)"),
   ("technical_agent", "Technical review (technical_agent)"),
   ("human_approval", "Awaiting approval (human_approval)"),
   ("report_agent", "Report generation (report_agent)")].lookup k

/-- One persisted log record (`logItems` entries; the `timeISO` wall-clock
field is environment-dependent and elided — no claim concerns timestamps). -/
structure LogItem where
  tag : String
  agent : String
  summary : String
  detail : String
  raw : Option JVal

/-- `MAX_LOG_ITEMS` (frontend/app.js 22, frontend_ls/app.js 13). -/
def MAX_LOG_ITEMS : Nat := 80

/-- `addLogEntry` / `addLog`: `logItems.unshift(entry)` followed by
`if (logItems.length > MAX_LOG_ITEMS) logItems = logItems.slice(0, MAX_LOG_ITEMS)`
(frontend/app.js 240-251; frontend_ls/app.js 184-188 is the same cap logic). -/
def addLogEntry (e : LogItem) (l : List LogItem) : List LogItem :=
  let l2 := e :: l
  if l2.length > MAX_LOG_ITEMS then l2.take MAX_LOG_ITEMS else l2

/-- A semantic fact emitted while interpreting one SSE frame: a `setWork`
step change, an interrupt surfaced via `showApprovalIfNeeded`, or an
`addLogEntry` call. -/
inductive UiFact where
  | stepChanged (step : String)
  | interruptShown (payload : JVal)
  | logEntry (e : LogItem)

def isLogEntryFact : UiFact → Bool
  | .logEntry _ => true
  | _ => false

def isStepChangedFact : UiFact → Bool
  | .stepChanged _ => true
  | _ => false

/-- `showApprovalIfNeeded(payload)` (frontend/app.js 592-609): a no-op when
already awaiting approval, else the phase change plus the HITL log entry. -/
def showApprovalIfNeededFacts (ui : UiState) (payload : JVal) : List UiFact :=
  if ui = .waiting_approval then []
  else [.interruptShown payload,
        .logEntry ⟨"HITL", (NODE_LABEL "human_approval").getD "",
                   "Awaiting approval (user input required).",
                   jsonStringify payload, some payload⟩]

/-- The mid-stream authoritative step:
`raw.values && typeof raw.values === "object"` then `valuesObj?.current_step ?
String(valuesObj.current_step) : ""` (frontend/app.js 633-637). -/
def stepFromValuesStrict (raw : JVal) : Option String :=
  match getField raw "values" with
  | some v =>
    if truthy v && isObjType v then
      match getField v "current_step" with
      | some cs => if truthy cs then some (jsString false cs) else none
      | none => none
    else none
  | none => none

/-- `raw?.values?.current_step ? String(raw.values.current_step) : ""`
(frontend/app.js 671). -/
def stepFromValuesLoose (raw : JVal) : Option String :=
  match getField raw "values" with
  | some v =>
    match getField v "current_step" with
    | some cs => if truthy cs then some (jsString false cs) else none
    | none => none
  | none => none

/-- `(obj.updates && typeof obj.updates === "object") ? obj.updates : obj`. -/
def updatesTarget (obj : JVal) : JVal :=
  match getField obj "updates" with
  | some up => if truthy up && isObjType up then up else obj
  | none => obj

/-- `Object.keys(u)` member values `u[k]`, in key order (array elements for
arrays, whose `Object.keys` are the indices). -/
def ownEntries : JVal → List JVal
  | .jobj fs => fs.map Prod.snd
  | .jarr xs => xs
  | _ => []

/-- `Object.keys(u)`. -/
def keysOf : JVal → List String
  | .jobj fs => fs.map Prod.fst
  | .jarr xs => (List.range xs.length).map toString
  | _ => []

/-- The key loop of `pickCurrentStepFromUpdates`: first member value carrying
a trimmed non-empty string `current_step`; returns the trimmed step. -/
def firstStepValue : List JVal → Option String
  | [] => none
  | v :: rest =>
    if truthy v && isObjType v then
      match getField v "current_step" with
      | some (.jstr s) => if jsTrimS s ≠ "" then some (jsTrimS s) else firstStepValue rest
      | _ => firstStepValue rest
    else firstStepValue rest

/-- `pickCurrentStepFromUpdates(obj)` (frontend/app.js 557-569). -/
def pickCurrentStepFromUpdates (obj : JVal) : Option String :=
  if truthy obj && isObjType obj then
    let u := updatesTarget obj
    if truthy u && isObjType u then firstStepValue (ownEntries u) else none
  else none

/-- `pickNodeKeyFromUpdates(obj)` (frontend/app.js 542-551). -/
def pickNodeKeyFromUpdates (obj : JVal) : Option String :=
  if truthy obj && isObjType obj then
    let u := updatesTarget obj
    if truthy u && isObjType u then (keysOf u).find? (fun k => (NODE_LABEL k).isSome)
    else none
  else none

/-- Nullish coalescing helper: `some jnull` and `none` are both nullish. -/
def nnOpt : Option JVal → Option JVal
  | some .jnull => none
  | x => x

/-- The message-array probe of `extractReadableOutputFromNodeState`: last
element of `nodeState[key]` when it is a non-empty array, rendered via the
`content ?? text ?? message ?? last` chain. -/
def msgFrom (nodeState : JVal) (key : String) : Option String :=
  match getField nodeState key with
  | some (.jarr xs) =>
    match xs.getLast? with
    | some last =>
      let content :=
        (((nnOpt (getField last "content")).orElse
            (fun _ => nnOpt (getField last "text"))).orElse
          (fun _ => nnOpt (getField last "message"))).getD last
      some (match content with
            | .jstr s => s
            | v => jsonStringify v)
    | none => none
  | _ => none

/-- `extractReadableOutputFromNodeState(nodeState)` (frontend/app.js 571-590). -/
def extractReadableOutputFromNodeState (nodeState : JVal) : String :=
  if truthy nodeState && isObjType nodeState then
    let fallback :=
      match msgFrom nodeState "analysis_messages" with
      | some t => t
      | none =>
        match msgFrom nodeState "research_messages" with
        | some t => t
        | none => jsonStringify nodeState
    match getField nodeState "final_report" with
    | some (.jstr s) => if jsTrimS s ≠ "" then s else fallback
    | _ => fallback
  else ""

/-- `handleSseEvent(ev)` (frontend/app.js 611-716) with
`SHOW_NOISY_SSE = false`, as the ordered list of facts it applies.  `raw` is
the frame's data; a data payload that failed JSON parsing enters as `jstr`
(both behave as JavaScript strings here).  `setStatus` updates only the
status inspector text and is not a fact. -/
def handleSseEvent (ui : UiState) (eventName : String) (raw : JVal) : List UiFact :=
  match (if isObjType raw then extractInterruptPayload raw else none) with
  | some p => showApprovalIfNeededFacts ui p
  | none =>
    if eventName == "metadata" || eventName == "ping" || eventName == "keepalive" then []
    else
      let stepFacts : List UiFact :=
        if isObjType raw then
          match stepFromValuesStrict raw with
          | some s => [.stepChanged s]
          | none => []
        else []
      if (eventName == "updates") && isObjType raw && (pickCurrentStepFromUpdates raw).isSome then
        stepFacts ++ [.stepChanged ((pickCurrentStepFromUpdates raw).getD "")]
      else if eventName == "updates" then
        match pickNodeKeyFromUpdates raw with
        | some k =>
          let u := updatesTarget raw
          let nodeState :=
            match getField u k with
            | some v => if truthy v then v else .jobj []
            | none => .jobj []
          let text := extractReadableOutputFromNodeState nodeState
          stepFacts ++
            [.logEntry ⟨"AGENT", (NODE_LABEL k).getD k,
                        (if truncateStr text 140 ≠ "" then truncateStr text 140 else "(updated)"),
                        (if text ≠ "" then text else "(updated)"),
                        some raw⟩]
        | none => stepFacts
      else if eventName == "values" then
        match stepFromValuesLoose raw with
        | some current =>
          stepFacts ++
            [.logEntry ⟨"STATE", (NODE_LABEL current).getD current,
                        "State updated (values).",
                        jsonStringify ((nnOpt (getField raw "values")).getD raw),
                        some raw⟩]
        | none => stepFacts
      else stepFacts

/-! ## Run State Machine, streaming variant (frontend/app.js 718-1000) -/

namespace FE

/-- The mutable client state of `frontend/app.js`: the module-level variables
(`threadId`, `uiState`, `logItems`), the persisted `localStorage` slot under
`THREAD_ID_KEY` (`stored`), and the rendered surfaces the claims observe
(`work` = work badge step, `interrupt` = approval-card payload when shown,
`reportShown` = report-card text when shown, `errorBanner`).  `polls` counts
`getThread` snapshot requests and `lastReqTid` records the thread id of the
most recent `runs/stream` request (request-trace instrumentation). -/
structure St where
  threadId : Option String
  stored : Option String
  uiState : UiState
  log : List LogItem
  work : String
  interrupt : Option JVal
  reportShown : Option String
  errorBanner : Option String
  polls : Nat
  lastReqTid : Option String

/-- Apply one classified fact to the state (`setWork`,
`showApprovalIfNeeded`'s phase change + approval card, `addLogEntry`). -/
def applyFact (st : St) : UiFact → St
  | .stepChanged s => { st with work := s }
  | .interruptShown p => { st with uiState := .waiting_approval, interrupt := some p }
  | .logEntry e => { st with log := addLogEntry e st.log }

/-- Deliver one decoded frame to `handleSseEvent` and apply its facts. -/
def processEvents (st : St) (events : List (String × JVal)) : St :=
  events.foldl (fun st ev => (handleSseEvent st.uiState ev.1 ev.2).foldl applyFact st) st

/-- `resetViewForRun()` (frontend/app.js 721-726). -/
def resetViewForRun (st : St) : St :=
  { st with errorBanner := none, interrupt := none, reportShown := none }

/-- The `catch` handler of `runWithUi` (frontend/app.js 843-854). -/
def errCatch (st : St) (msg : String) : St :=
  { st with uiState := .error, errorBanner := some msg,
            log := addLogEntry ⟨"ERROR", "", msg, msg, none⟩ st.log }

/-- `ensureThreadIdFromServer({forceNew})` (frontend/app.js 363-371): reuse a
truthy held `threadId` unless `forceNew`; otherwise `createThread()` — whose
outcome the environment supplies — then persist and log the new id. -/
def ensureThreadIdFromServerE (forceNew : Bool) (create : Except String String) (st : St) :
    Except String (String × St) :=
  if ¬forceNew ∧ st.threadId.getD "" ≠ "" then .ok (st.threadId.getD "", st)
  else
    match create with
    | .error msg => .error msg
    | .ok tid =>
      .ok (tid, { st with threadId := some tid, stored := some tid,
                          log := addLogEntry ⟨"THREAD", "", s!"Created: thread_id={tid}",
                                              s!"Created: thread_id={tid}", none⟩ st.log })

/-- One start/resume operation's network outcomes: the `createThread` result
(consulted only if a create happens), the decoded stream frames, an optional
stream failure raised after those frames, and the `getThread` poll result. -/
structure NetEnv where
  create : Except String String
  events : List (String × JVal)
  streamErr : Option String
  poll : Except String JVal

/-- The `eventCount === 0` warning at the end of `runStream`
(frontend/app.js 532-538). -/
def warnIfNoEvents (st : St) (events : List (String × JVal)) : St :=
  let warnEntry : LogItem :=
    ⟨"WARN", "", "No SSE events were received.",
     "No SSE events were received. The server may not be emitting SSE, buffering may be occurring, or a proxy could be interfering.",
     none⟩
  if events.isEmpty then { st with log := addLogEntry warnEntry st.log }
  else st

/-- The shared tail of `start`/`resume` (frontend/app.js 765-792 and
814-841): after the snapshot poll, an interrupt wins, else a non-empty
trimmed final report is shown, else done with the fixed no-report text. -/
def finalizeAfterStream (noReportText : String) (st : St) (threadObj : JVal) : St :=
  let currentStep := extractCurrentStepFromThread threadObj
  let st := if currentStep ≠ "" then { st with work := currentStep } else st
  match extractInterruptPayload threadObj with
  | some p => (showApprovalIfNeededFacts st.uiState p).foldl applyFact st
  | none =>
    if extractFinalReportFromThread threadObj = "" then
      { st with uiState := .done, reportShown := some noReportText,
                log := addLogEntry ⟨"DONE", "", "Done (no final report)",
                                    "Done (no final report)", none⟩ st.log }
    else
      { st with uiState := .done, reportShown := some (extractFinalReportFromThread threadObj),
                log := addLogEntry ⟨"DONE", "", "Done (final report generated)",
                                    "Done (final report generated)", none⟩ st.log }

/-- Stream consumption and the post-stream snapshot poll, shared by `start`
and `resume`, wrapped in `runWithUi`'s catch. -/
def runStreamAndFinalize (noReportText : String) (st : St) (env : NetEnv) : St :=
  let st := processEvents st env.events
  match env.streamErr with
  | some msg => errCatch st msg
  | none =>
    let st := warnIfNoEvents st env.events
    let st := { st with polls := st.polls + 1 }
    match env.poll with
    | .error msg => errCatch st msg
    | .ok threadObj => finalizeAfterStream noReportText st threadObj

/-- The no-report text of `start` (frontend/app.js 781). -/
def startNoReportText : String :=
  "(The final report has not been generated yet. If you were not prompted for approval, check the server logs.)"

/-- The no-report text of `resume` (frontend/app.js 830). -/
def resumeNoReportText : String :=
  "(The final report has not been generated yet.)"

/-- `runWithUi(start)` (frontend/app.js 734-792): reset the view, force a
fresh server-side thread, mark `starting`, stream, then poll and finalize.
The user theme text is not modelled (its storage is outside the core). -/
def start (st : St) (env : NetEnv) : St :=
  let st := resetViewForRun st
  match ensureThreadIdFromServerE true env.create st with
  | .error msg => errCatch st msg
  | .ok (tid, st) =>
    let st := { st with work := "-", uiState := .starting, lastReqTid := some tid,
                        log := addLogEntry ⟨"START", "", "Started",
                                            s!"Started / thread_id={tid}", none⟩ st.log }
    runStreamAndFinalize startNoReportText st env

/-- `runWithUi(resume decision)` (frontend/app.js 794-841): reset the view,
reuse the held thread id (creating one only when none is held), mark
`resuming`, stream the decision, then poll and finalize. -/
def resume (st : St) (decision : String) (env : NetEnv) : St :=
  let st := resetViewForRun st
  match ensureThreadIdFromServerE false env.create st with
  | .error msg => errCatch st msg
  | .ok (tid, st) =>
    let st := { st with uiState := .resuming, lastReqTid := some tid,
                        log := addLogEntry ⟨"RESUME", "", s!"Input: {decision}",
                                            s!"Input: {decision} / thread_id={tid}", none⟩ st.log }
    runStreamAndFinalize resumeNoReportText st env

/-- `clearAll()` (frontend/app.js 925-941). -/
def clearAll (st : St) : St :=
  { st with threadId := none, stored := none, interrupt := none, reportShown := none,
            errorBanner := none, uiState := .idle, work := "-", log := [] }

/-- Environment of `initAsync`: the persisted `THREAD_ID_KEY` slot and, when
one is present, the outcome of the single `getThread` poll. -/
inductive InitEnv where
  | noSaved
  | pollFail (saved : String) (msg : String)
  | polled (saved : String) (thread : JVal)

/-- The state at the top of `initAsync` (frontend/app.js 943-949). -/
def initBase (stored : Option String) : St :=
  { threadId := none, stored := stored, uiState := .idle,
    log := addLogEntry ⟨"UI", "", "App loaded.", "App loaded.", none⟩ [],
    work := "-", interrupt := none, reportShown := none, errorBanner := none,
    polls := 0, lastReqTid := none }

/-- `initAsync()` (frontend/app.js 943-976): with a saved id, poll its
snapshot once; an interrupt restores `waiting_approval` keeping the id, and
any other outcome (no interrupt, or a failed poll) clears the persisted id. -/
def initAsync : InitEnv → St
  | .noSaved => initBase none
  | .pollFail saved msg =>
    if saved = "" then initBase (some saved)
    else
      let st := { initBase (some saved) with polls := 1 }
      { st with stored := none,
                log := addLogEntry ⟨"WARN", "", "Failed to verify saved thread → discarded.",
                                    s!"Failed to verify saved thread, so it was discarded: {msg}",
                                    none⟩ st.log }
  | .polled saved thread =>
    if saved = "" then initBase (some saved)
    else
      let st := { initBase (some saved) with polls := 1 }
      let currentStep := extractCurrentStepFromThread thread
      let st := if currentStep ≠ "" then { st with work := currentStep } else st
      match extractInterruptPayload thread with
      | some p =>
        { st with threadId := some saved, uiState := .waiting_approval, interrupt := some p,
                  log := addLogEntry ⟨"UI", "", s!"Restored: awaiting approval (thread_id={saved})",
                                      s!"Restored: awaiting approval (thread_id={saved})",
                                      none⟩ st.log }
      | none =>
        { st with stored := none,
                  log := addLogEntry ⟨"UI", "", "Discarded previous thread (not awaiting approval).",
                                      s!"Discarded previous thread (not awaiting approval): thread_id={saved}",
                                      none⟩ st.log }

end FE

/-! ## Run State Machine, invoke variant (frontend_ls/app.js) -/

namespace LS

/-- The mutable client state of `frontend_ls/app.js`.  The log is the same
capped structure (its entries are `(tag, message)` pairs; modelled with the
shared `LogItem` using the message for both summary and detail).  `polls`
counts snapshot polls: this variant has no snapshot endpoint, so no operation
ever increments it.  `lastReqTid` records the `thread_id` sent in the most
recent `/agent/invoke` body. -/
structure St where
  threadId : Option String
  stored : Option String
  uiState : UiState
  log : List LogItem
  interrupt : Option JVal
  reportShown : Option String
  errorBanner : Option String
  polls : Nat
  lastReqTid : Option String

/-- `addLog(tag, message)` (frontend_ls/app.js 184-188). -/
def addLog (tag message : String) (l : List LogItem) : List LogItem :=
  addLogEntry ⟨tag, "", message, message, none⟩ l

/-- `resetViewForRun()` (frontend_ls/app.js 298-303). -/
def resetViewForRun (st : St) : St :=
  { st with errorBanner := none, interrupt := none, reportShown := none }

/-- `ensureThreadId()` (frontend_ls/app.js 156-162): reuse a truthy held
`threadId`; otherwise adopt the environment-supplied fresh identifier
(`crypto.randomUUID()`), persisting it. -/
def ensureThreadId (st : St) (freshId : String) : String × St :=
  match st.threadId with
  | some t =>
    if t ≠ "" then (t, st)
    else (freshId, { st with threadId := some freshId, stored := some freshId })
  | none => (freshId, { st with threadId := some freshId, stored := some freshId })

/-- Outcome of one `callInvoke` request: a thrown error (transport failure or
a tagged abort) or the parsed response JSON. -/
inductive InvokeRes where
  | fail (msg : String)
  | ok (data : JVal)

/-- `out.status === "interrupted"`-style strict string comparison. -/
def statusIs (out : JVal) (s : String) : Bool :=
  match getField out "status" with
  | some (.jstr x) => x = s
  | _ => false

/-- The `catch` handler of `runWithUi` (frontend_ls/app.js 411-422). -/
def errCatch (st : St) (msg : String) : St :=
  { st with uiState := .error, errorBanner := some msg,
            log := addLog "ERROR" msg st.log }

/-- The response handling shared verbatim by `start` (frontend_ls/app.js
326-358) and `resume` (377-408): adopt a truthy `out.thread_id`, then branch
on `out.status` — `"interrupted"` shows the approval card, `"completed"`
shows the report, anything else is the unexpected-format error.  A missing
`output` object makes the source throw on `out.status` and land in
`runWithUi`'s catch; both roads end in the `error` phase with a banner. -/
def handleInvokeOut (st : St) (data : JVal) : St :=
  match getField data "output" with
  | none => errCatch st "Cannot read properties of undefined"
  | some out =>
    let st :=
      match getField out "thread_id" with
      | some v =>
        if truthy v then { st with threadId := some (jsString false v),
                                   stored := some (jsString false v) }
        else st
      | none => st
    if statusIs out "interrupted" then
      { st with uiState := .waiting_approval,
                interrupt := some ((nnOpt (getField out "interrupt")).getD .jnull),
                log := addLog "HITL" "Waiting for approval." st.log }
    else if statusIs out "completed" then
      { st with uiState := .done,
                reportShown := some (match getField out "report" with
                                     | some r => if truthy r then jsString false r else ""
                                     | none => ""),
                interrupt := none,
                log := addLog "DONE" "Completed (report generated)." st.log }
    else
      { st with uiState := .error, interrupt := none,
                errorBanner := some "Unexpected response format. Please check the 'status' field.",
                log := addLog "ERROR" "Unexpected response format." st.log }

/-- `runWithUi(start)` (frontend_ls/app.js 312-359): decide the thread id
first — reusing a held one — and send it; the environment supplies the fresh
id candidate and the response. -/
def start (st : St) (freshId : String) (res : InvokeRes) : St :=
  let st := resetViewForRun st
  let pr := ensureThreadId st freshId
  let st := { pr.2 with uiState := .starting, lastReqTid := some pr.1,
                        log := addLog "START" (s!"Started / thread_id=" ++ pr.1) pr.2.log }
  match res with
  | .fail msg => errCatch st msg
  | .ok data => handleInvokeOut st data

/-- `runWithUi(resume decision)` (frontend_ls/app.js 361-409):
`const tid = threadId || ensureThreadId()`, error out on a missing id, else
send the decision with the same thread id. -/
def resume (st : St) (freshId : String) (decision : String) (res : InvokeRes) : St :=
  let st := resetViewForRun st
  let pr :=
    match st.threadId with
    | some t => if t ≠ "" then (t, st) else ensureThreadId st freshId
    | none => ensureThreadId st freshId
  if pr.1 = "" then
    { pr.2 with uiState := .error,
                errorBanner := some "Missing thread_id. Click 'Run' first.",
                log := addLog "ERROR" "Cannot resume because thread_id is missing." pr.2.log }
  else
    let st := { pr.2 with uiState := .resuming, lastReqTid := some pr.1,
                          log := addLog "RESUME" (s!"Input: {decision} / thread_id=" ++ pr.1) pr.2.log }
    match res with
    | .fail msg => errCatch st msg
    | .ok data => handleInvokeOut st data

/-- `clearAll()` (frontend_ls/app.js 497-512). -/
def clearAll (st : St) : St :=
  { st with threadId := none, stored := none, interrupt := none, reportShown := none,
            errorBanner := none, uiState := .idle, log := [] }

/-- `init()` (frontend_ls/app.js 514-526): restore a truthy persisted id
unconditionally — no snapshot poll, no discarding — and stay `idle`. -/
def init (saved : Option String) : St :=
  let base : St :=
    { threadId := none, stored := saved, uiState := .idle, log := [],
      interrupt := none, reportShown := none, errorBanner := none,
      polls := 0, lastReqTid := none }
  match saved with
  | some t =>
    if t ≠ "" then
      { base with threadId := some t,
                  log := addLog "UI" "Ready." (addLog "UI" (s!"Restored: thread_id=" ++ t) base.log) }
    else { base with log := addLog "UI" "Ready." base.log }
  | none => { base with log := addLog "UI" "Ready." base.log }

end LS

/-! ## Helper lemmas -/

theorem truthy_of_getField_some {v : JVal} {k : String} {x : JVal}
    (h : getField v k = some x) : truthy v = true := by
  cases v <;> simp_all [getField, truthy]

theorem statusIsInterrupted_truthy (obj : JVal) (h : statusIsInterrupted obj = true) :
    truthy obj = true := by
  unfold statusIsInterrupted at h
  cases hg : getField obj "status" with
  | none => rw [hg] at h; simp at h
  | some v => exact truthy_of_getField_some hg

/-! ## Claim C8: log history cap -/

/-- Claim C8: after every append the log never exceeds the hard cap of 80;
appending to a log already holding 80 entries evicts exactly the oldest
(last, since the list is newest-first) entry; and the appended entry is
always at index 0. -/
theorem log_cap_invariant (e : LogItem) (l : List LogItem) :
    (addLogEntry e l).length ≤ MAX_LOG_ITEMS
    ∧ (addLogEntry e l).head? = some e
    ∧ (l.length = MAX_LOG_ITEMS → addLogEntry e l = e :: l.dropLast) := by
  refine ⟨?_, ?_, ?_⟩
  · simp only [addLogEntry]
    split
    · rw [List.length_take]
      omega
    · rename_i h
      simp at h ⊢
      omega
  · simp only [addLogEntry]
    split
    · rw [show (MAX_LOG_ITEMS = 79 + 1) from rfl, List.take_succ_cons]
      rfl
    · rfl
  · intro hlen
    have hgt : (e :: l).length > MAX_LOG_ITEMS := by simp [hlen]
    simp only [addLogEntry]
    split
    · rw [show (MAX_LOG_ITEMS = 79 + 1) from rfl, List.take_succ_cons,
          List.dropLast_eq_take, hlen]
      rfl
    · rename_i h
      exact absurd hgt h

/-- Witness for C8 at a concrete 80-entry log. -/
theorem log_cap_invariant_witness :
    (List.replicate 80 (⟨"UI", "", "x", "x", none⟩ : LogItem)).length = MAX_LOG_ITEMS
    ∧ addLogEntry ⟨"UI", "", "x", "x", none⟩ (List.replicate 80 ⟨"UI", "", "x", "x", none⟩)
      = ⟨"UI", "", "x", "x", none⟩ :: (List.replicate 80 (⟨"UI", "", "x", "x", none⟩ : LogItem)).dropLast :=
  ⟨by simp [MAX_LOG_ITEMS],
   (log_cap_invariant ⟨"UI", "", "x", "x", none⟩ _).2.2 (by simp [MAX_LOG_ITEMS])⟩

/-! ## Claim C3: synthetic fallback interrupt -/

/-- Claim C3: whenever none of the four candidate interrupt locations yields
a qualifying payload but the object's own `status` equals `"interrupted"`,
the Interrupt Extractor returns the synthetic canonical interrupt with the
default yes/retry/no options and empty preview (the canonical `preview`
field is the source's `analysis_preview` key). -/
theorem synthetic_interrupt_on_interrupted_status (obj : JVal)
    (hcand : scanCandidates (interruptCandidates obj) = none)
    (hstatus : statusIsInterrupted obj = true) :
    extractInterruptPayload obj = some syntheticInterrupt := by
  have ht := statusIsInterrupted_truthy obj hstatus
  simp [extractInterruptPayload, ht, hcand, hstatus]

/-- Witness for C3 at the spec's example snapshot
`{"status":"interrupted","values":{}}`. -/
theorem synthetic_interrupt_on_interrupted_status_witness :
    scanCandidates (interruptCandidates (.jobj [("status", .jstr "interrupted"), ("values", .jobj [])])) = none
    ∧ statusIsInterrupted (.jobj [("status", .jstr "interrupted"), ("values", .jobj [])]) = true
    ∧ extractInterruptPayload (.jobj [("status", .jstr "interrupted"), ("values", .jobj [])])
      = some syntheticInterrupt := by
  refine ⟨rfl, ?_, ?_⟩
  · simp [statusIsInterrupted, getField, lookupField, truthy, jsString]
  · exact synthetic_interrupt_on_interrupted_status _ rfl
      (by simp [statusIsInterrupted, getField, lookupField, truthy, jsString])

theorem addLogEntry_head (e : LogItem) (l : List LogItem) :
    (addLogEntry e l).head? = some e := by
  simp only [addLogEntry]
  split
  · rw [show (MAX_LOG_ITEMS = 79 + 1) from rfl, List.take_succ_cons]
    rfl
  · rfl

/-- The fields no UI fact and no view update ever touches: the held session
identifier, the persisted identifier, the poll counter, and the last request
identifier. -/
def FE.persist (st : FE.St) : Option String × Option String × Nat × Option String :=
  (st.threadId, st.stored, st.polls, st.lastReqTid)

theorem FE.applyFact_persist (st : FE.St) (f : UiFact) :
    FE.persist (FE.applyFact st f) = FE.persist st := by
  cases f <;> rfl

theorem FE.foldl_applyFact_persist (facts : List UiFact) :
    ∀ st : FE.St, FE.persist (facts.foldl FE.applyFact st) = FE.persist st := by
  induction facts with
  | nil => intro st; rfl
  | cons f fs ih =>
    intro st
    rw [List.foldl_cons, ih, FE.applyFact_persist]

theorem FE.applyFact_reportShown (st : FE.St) (f : UiFact) :
    (FE.applyFact st f).reportShown = st.reportShown := by
  cases f <;> rfl

theorem FE.foldl_applyFact_reportShown (facts : List UiFact) :
    ∀ st : FE.St, (facts.foldl FE.applyFact st).reportShown = st.reportShown := by
  induction facts with
  | nil => intro st; rfl
  | cons f fs ih =>
    intro st
    rw [List.foldl_cons, ih, FE.applyFact_reportShown]

theorem FE.processEvents_persist (events : List (String × JVal)) :
    ∀ st : FE.St, FE.persist (FE.processEvents st events) = FE.persist st := by
  induction events with
  | nil => intro st; rfl
  | cons ev evs ih =>
    intro st
    simp only [FE.processEvents, List.foldl_cons] at *
    rw [ih, FE.foldl_applyFact_persist]

theorem FE.errCatch_persist (st : FE.St) (msg : String) :
    FE.persist (FE.errCatch st msg) = FE.persist st := rfl

theorem FE.warnIfNoEvents_persist (st : FE.St) (events : List (String × JVal)) :
    FE.persist (FE.warnIfNoEvents st events) = FE.persist st := by
  simp only [FE.warnIfNoEvents]
  split <;> rfl

theorem FE.finalize_persist (nr : String) (st : FE.St) (t : JVal) :
    FE.persist (FE.finalizeAfterStream nr st t) = FE.persist st := by
  simp only [FE.finalizeAfterStream]
  set st1 := if extractCurrentStepFromThread t ≠ "" then
    { st with work := extractCurrentStepFromThread t } else st with hst1
  have hp : FE.persist st1 = FE.persist st := by
    rw [hst1]
    split <;> rfl
  split
  · rw [FE.foldl_applyFact_persist]
    exact hp
  · split <;> exact hp

theorem FE.persist_ids3 {a b : FE.St} (h : FE.persist a = FE.persist b) :
    a.threadId = b.threadId ∧ a.stored = b.stored ∧ a.lastReqTid = b.lastReqTid := by
  simp only [FE.persist, Prod.mk.injEq] at h
  exact ⟨h.1, h.2.1, h.2.2.2⟩

theorem FE.runStreamAndFinalize_ids3 (nr : String) (st : FE.St) (env : FE.NetEnv) :
    (FE.runStreamAndFinalize nr st env).threadId = st.threadId
    ∧ (FE.runStreamAndFinalize nr st env).stored = st.stored
    ∧ (FE.runStreamAndFinalize nr st env).lastReqTid = st.lastReqTid := by
  simp only [FE.runStreamAndFinalize]
  cases henv : env.streamErr with
  | some msg =>
    exact FE.persist_ids3 ((FE.errCatch_persist _ _).trans (FE.processEvents_persist _ _))
  | none =>
    have hW : FE.persist (FE.warnIfNoEvents (FE.processEvents st env.events) env.events)
        = FE.persist st :=
      (FE.warnIfNoEvents_persist _ _).trans (FE.processEvents_persist _ _)
    have h3 := FE.persist_ids3 hW
    set W := FE.warnIfNoEvents (FE.processEvents st env.events) env.events with hWdef
    cases hp : env.poll with
    | error msg =>
      have he := FE.persist_ids3 (FE.errCatch_persist { W with polls := W.polls + 1 } msg)
      exact ⟨he.1.trans h3.1, he.2.1.trans h3.2.1, he.2.2.trans h3.2.2⟩
    | ok threadObj =>
      have he := FE.persist_ids3 (FE.finalize_persist nr { W with polls := W.polls + 1 } threadObj)
      exact ⟨he.1.trans h3.1, he.2.1.trans h3.2.1, he.2.2.trans h3.2.2⟩

theorem FE.persist_polls {a b : FE.St} (h : FE.persist a = FE.persist b) :
    a.polls = b.polls := by
  simp only [FE.persist, Prod.mk.injEq] at h
  exact h.2.2.1

theorem FE.runStreamAndFinalize_polls (nr : String) (st : FE.St) (env : FE.NetEnv)
    (h : env.streamErr = none) :
    (FE.runStreamAndFinalize nr st env).polls = st.polls + 1 := by
  simp only [FE.runStreamAndFinalize, h]
  have hW : FE.persist (FE.warnIfNoEvents (FE.processEvents st env.events) env.events)
      = FE.persist st :=
    (FE.warnIfNoEvents_persist _ _).trans (FE.processEvents_persist _ _)
  have h3 := FE.persist_polls hW
  set W := FE.warnIfNoEvents (FE.processEvents st env.events) env.events with hWdef
  cases hp : env.poll with
  | error msg =>
    have he := FE.persist_polls (FE.errCatch_persist { W with polls := W.polls + 1 } msg)
    rw [he]
    simpa using h3
  | ok threadObj =>
    have he := FE.persist_polls (FE.finalize_persist nr { W with polls := W.polls + 1 } threadObj)
    rw [he]
    simpa using h3

theorem FE.setWork_proj (st : FE.St) (c : String) :
    (if c ≠ "" then { st with work := c } else st).uiState = st.uiState
    ∧ (if c ≠ "" then { st with work := c } else st).reportShown = st.reportShown
    ∧ (if c ≠ "" then { st with work := c } else st).log = st.log := by
  split <;> exact ⟨rfl, rfl, rfl⟩

/-! ## Claim C5: post-stream reconciliation precedence -/

/-- Claim C5: after a stream closes the client polls the snapshot (one poll
per completed stream, in `start` and in `resume`) and decides the final
phase with fixed precedence: a snapshot interrupt wins over a terminal
report (awaiting approval, report untouched); a non-empty report wins over
the no-result case (done, report shown); absent both, the phase is `done` —
not `error` — with the distinct no-report text and log sub-condition. -/
theorem post_stream_precedence :
    (∀ (nr : String) (st : FE.St) (t p : JVal), extractInterruptPayload t = some p →
       (FE.finalizeAfterStream nr st t).uiState = .waiting_approval
       ∧ (FE.finalizeAfterStream nr st t).reportShown = st.reportShown)
    ∧ (∀ (nr : String) (st : FE.St) (t : JVal), extractInterruptPayload t = none →
       extractFinalReportFromThread t ≠ "" →
       (FE.finalizeAfterStream nr st t).uiState = .done
       ∧ (FE.finalizeAfterStream nr st t).reportShown = some (extractFinalReportFromThread t)
       ∧ (FE.finalizeAfterStream nr st t).log.head?
         = some ⟨"DONE", "", "Done (final report generated)", "Done (final report generated)", none⟩)
    ∧ (∀ (nr : String) (st : FE.St) (t : JVal), extractInterruptPayload t = none →
       extractFinalReportFromThread t = "" →
       (FE.finalizeAfterStream nr st t).uiState = .done
       ∧ (FE.finalizeAfterStream nr st t).reportShown = some nr
       ∧ (FE.finalizeAfterStream nr st t).log.head?
         = some ⟨"DONE", "", "Done (no final report)", "Done (no final report)", none⟩)
    ∧ (∀ (st : FE.St) (env : FE.NetEnv) (ctid : String), env.create = .ok ctid →
       env.streamErr = none → (FE.start st env).polls = st.polls + 1)
    ∧ (∀ (st : FE.St) (d : String) (env : FE.NetEnv) (t : String), st.threadId = some t →
       t ≠ "" → env.streamErr = none → (FE.resume st d env).polls = st.polls + 1) := by
  refine ⟨?_, ?_, ?_, ?_, ?_⟩
  · intro nr st t p hp
    simp only [FE.finalizeAfterStream, hp]
    set st1 := if extractCurrentStepFromThread t ≠ "" then
      { st with work := extractCurrentStepFromThread t } else st with hst1
    have hui : st1.uiState = st.uiState := by rw [hst1]; split <;> rfl
    have hrep : st1.reportShown = st.reportShown := by rw [hst1]; split <;> rfl
    by_cases hw : st1.uiState = .waiting_approval
    · simp only [showApprovalIfNeededFacts, if_pos hw, List.foldl_nil]
      exact ⟨hw, hrep⟩
    · simp only [showApprovalIfNeededFacts, if_neg hw, List.foldl_cons, List.foldl_nil,
                 FE.applyFact]
      exact ⟨trivial, hrep⟩
  · intro nr st t hnone hrep
    simp only [FE.finalizeAfterStream, hnone, if_neg hrep]
    simp [addLogEntry_head]
  · intro nr st t hnone hrep
    simp only [FE.finalizeAfterStream, hnone, hrep, if_pos rfl]
    simp [addLogEntry_head]
  · intro st env ctid hc hse
    simp only [FE.start, FE.ensureThreadIdFromServerE, hc]
    split
    · rename_i msg heq
      split at heq <;> simp at heq
    · rename_i tid2 st2 heq
      split at heq <;>
      · simp only [Except.ok.injEq, Prod.mk.injEq] at heq
        rw [FE.runStreamAndFinalize_polls _ _ _ hse, ← heq.2]
        rfl
  · intro st d env t ht htne hse
    simp only [FE.resume, FE.ensureThreadIdFromServerE]
    split
    · rename_i msg heq
      split at heq
      · simp at heq
      · rename_i hcond2
        exfalso
        apply hcond2
        refine ⟨by simp, ?_⟩
        have hth : (FE.resetViewForRun st).threadId = some t := ht
        rw [hth]
        simpa using htne
    · rename_i tid2 st2 heq
      split at heq
      · simp only [Except.ok.injEq, Prod.mk.injEq] at heq
        rw [FE.runStreamAndFinalize_polls _ _ _ hse, ← heq.2]
        rfl
      · rename_i hcond2
        exfalso
        apply hcond2
        refine ⟨by simp, ?_⟩
        have hth : (FE.resetViewForRun st).threadId = some t := ht
        rw [hth]
        simpa using htne

/-- Witness for C5: an interrupt-plus-report snapshot ends awaiting approval;
a report-only snapshot ends done; a whitespace-only report shows the
no-report text; completed streams poll exactly once in start and resume. -/
theorem post_stream_precedence_witness :
    (FE.finalizeAfterStream "x" (FE.initBase none)
        (.jobj [("__interrupt__", .jarr [.jobj [("question", .jstr "Q")]]),
                ("values", .jobj [("final_report", .jstr "R")])])).uiState = .waiting_approval
    ∧ (FE.finalizeAfterStream "x" (FE.initBase none)
        (.jobj [("values", .jobj [("final_report", .jstr "R")])])).uiState = .done
    ∧ (FE.finalizeAfterStream "x" (FE.initBase none)
        (.jobj [("values", .jobj [("final_report", .jstr "   ")])])).reportShown = some "x"
    ∧ (FE.start (FE.initBase none) ⟨.ok "T", [], none, .error "boom"⟩).polls
      = (FE.initBase none).polls + 1
    ∧ (FE.resume { FE.initBase none with threadId := some "T" } "y"
        ⟨.ok "T2", [], none, .error "boom"⟩).polls
      = ({ FE.initBase none with threadId := some "T" } : FE.St).polls + 1 := by
  refine ⟨?_, ?_, ?_, ?_, ?_⟩
  · exact (post_stream_precedence.1 "x" (FE.initBase none)
      (.jobj [("__interrupt__", .jarr [.jobj [("question", .jstr "Q")]]),
              ("values", .jobj [("final_report", .jstr "R")])])
      (.jobj [("question", .jstr "Q")]) rfl).1
  · exact (post_stream_precedence.2.1 "x" (FE.initBase none)
      (.jobj [("values", .jobj [("final_report", .jstr "R")])]) rfl (by decide)).1
  · exact (post_stream_precedence.2.2.1 "x" (FE.initBase none)
      (.jobj [("values", .jobj [("final_report", .jstr "   ")])]) rfl rfl).2.1
  · exact post_stream_precedence.2.2.2.1 (FE.initBase none)
      ⟨.ok "T", [], none, .error "boom"⟩ "T" rfl rfl
  · exact post_stream_precedence.2.2.2.2 { FE.initBase none with threadId := some "T" } "y"
      ⟨.ok "T2", [], none, .error "boom"⟩ "T" rfl (by decide) rfl

/-! ## Claim C10: final-report extraction requires non-whitespace text -/

/-- Claim C10: the final-report extraction returns the report string exactly
when `values.final_report` is a string whose trim is non-empty; in every
other case (missing `values`, missing or non-string field, empty or
whitespace-only text) it returns `""`, and a whitespace-only report is
therefore routed to the done-with-no-report branch instead of displayed. -/
theorem final_report_extraction_trimmed :
    (∀ (t v : JVal) (s : String), getField t "values" = some v →
       getField v "final_report" = some (.jstr s) → jsTrimS s ≠ "" →
       extractFinalReportFromThread t = s)
    ∧ (∀ t : JVal,
       (¬ ∃ (v : JVal) (s : String), getField t "values" = some v
          ∧ getField v "final_report" = some (.jstr s) ∧ jsTrimS s ≠ "") →
       extractFinalReportFromThread t = "")
    ∧ (∀ (nr : String) (st : FE.St) (t v : JVal) (s : String),
       getField t "values" = some v → getField v "final_report" = some (.jstr s) →
       jsTrimS s = "" → extractInterruptPayload t = none →
       (FE.finalizeAfterStream nr st t).uiState = .done
       ∧ (FE.finalizeAfterStream nr st t).reportShown = some nr) := by
  refine ⟨?_, ?_, ?_⟩
  · intro t v s h1 h2 h3
    have htr : truthy v = true := truthy_of_getField_some h2
    simp [extractFinalReportFromThread, h1, htr, h2, h3]
  · intro t hne
    cases hv : getField t "values" with
    | none => simp [extractFinalReportFromThread, hv]
    | some v =>
      cases htv : truthy v with
      | false => simp [extractFinalReportFromThread, hv, htv]
      | true =>
        cases hf : getField v "final_report" with
        | none => simp [extractFinalReportFromThread, hv, htv, hf]
        | some fr =>
          cases fr with
          | jstr s =>
            by_cases hts : jsTrimS s = ""
            · simp [extractFinalReportFromThread, hv, htv, hf, hts]
            · exact absurd ⟨v, s, hv, hf, hts⟩ hne
          | jnull => simp [extractFinalReportFromThread, hv, htv, hf]
          | jbool b => simp [extractFinalReportFromThread, hv, htv, hf]
          | jnum n => simp [extractFinalReportFromThread, hv, htv, hf]
          | jarr xs => simp [extractFinalReportFromThread, hv, htv, hf]
          | jobj fs2 => simp [extractFinalReportFromThread, hv, htv, hf]
  · intro nr st t v s h1 h2 h3 hni
    have htr : truthy v = true := truthy_of_getField_some h2
    have hrep : extractFinalReportFromThread t = "" := by
      simp [extractFinalReportFromThread, h1, htr, h2, h3]
    simp only [FE.finalizeAfterStream, hni, hrep, if_pos rfl]
    simp

/-- Witness for C10 at a whitespace-only and at a padded non-empty report. -/
theorem final_report_extraction_trimmed_witness :
    extractFinalReportFromThread (.jobj [("values", .jobj [("final_report", .jstr " \n ")])]) = ""
    ∧ (FE.finalizeAfterStream "nr" (FE.initBase none)
        (.jobj [("values", .jobj [("final_report", .jstr " \n ")])])).uiState = .done
    ∧ (FE.finalizeAfterStream "nr" (FE.initBase none)
        (.jobj [("values", .jobj [("final_report", .jstr " \n ")])])).reportShown = some "nr"
    ∧ extractFinalReportFromThread (.jobj [("values", .jobj [("final_report", .jstr " R ")])]) = " R " := by
  refine ⟨?_, ?_, ?_, ?_⟩
  · exact final_report_extraction_trimmed.2.1
      (.jobj [("values", .jobj [("final_report", .jstr " \n ")])])
      (by
        rintro ⟨v, s, h1, h2, h3⟩
        have hv : JVal.jobj [("final_report", JVal.jstr " \n ")] = v := Option.some.inj h1
        subst hv
        have hs : (" \n " : String) = s := JVal.jstr.inj (Option.some.inj h2)
        subst hs
        exact h3 rfl)
  · exact (final_report_extraction_trimmed.2.2 "nr" (FE.initBase none)
      (.jobj [("values", .jobj [("final_report", .jstr " \n ")])])
      (.jobj [("final_report", .jstr " \n ")]) " \n " rfl rfl rfl rfl).1
  · exact (final_report_extraction_trimmed.2.2 "nr" (FE.initBase none)
      (.jobj [("values", .jobj [("final_report", .jstr " \n ")])])
      (.jobj [("final_report", .jstr " \n ")]) " \n " rfl rfl rfl rfl).2
  · exact final_report_extraction_trimmed.1
      (.jobj [("values", .jobj [("final_report", .jstr " R ")])])
      (.jobj [("final_report", .jstr " R ")]) " R " rfl rfl (by decide)

/-! ## Claim C7: Interrupt Extractor idempotence and location-independence -/

/-- Claim C7: the extractor is a pure function of its (unmodified) input, so
two applications to the same input agree; and a canonical interrupt object
(one passing the acceptance test and carrying no `value` indirection) placed
at any of the four documented candidate locations extracts to the identical
result, namely the object itself. -/
theorem interrupt_extractor_location_independent :
    (∀ obj : JVal, extractInterruptPayload obj = extractInterruptPayload obj)
    ∧ ∀ fs : List (String × JVal),
        isApprovalLike (.jobj fs) = true →
        getField (.jobj fs) "value" = none →
        extractInterruptPayload (.jobj [("__interrupt__", .jobj fs)]) = some (.jobj fs)
        ∧ extractInterruptPayload (.jobj [("values", .jobj [("__interrupt__", .jobj fs)])])
          = some (.jobj fs)
        ∧ extractInterruptPayload (.jobj [("interrupts", .jobj fs)]) = some (.jobj fs)
        ∧ extractInterruptPayload (.jobj [("values", .jobj [("interrupts", .jobj fs)])])
          = some (.jobj fs) := by
  refine ⟨fun _ => rfl, ?_⟩
  intro fs happ hval
  have hscan : scanCandidates [JVal.jobj fs] = some (.jobj fs) := by
    simp [scanCandidates, truthy, hval, happ]
  have hc1 : interruptCandidates (.jobj [("__interrupt__", .jobj fs)]) = [.jobj fs] := rfl
  have hc2 : interruptCandidates (.jobj [("values", .jobj [("__interrupt__", .jobj fs)])])
      = [.jobj fs] := rfl
  have hc3 : interruptCandidates (.jobj [("interrupts", .jobj fs)]) = [.jobj fs] := rfl
  have hc4 : interruptCandidates (.jobj [("values", .jobj [("interrupts", .jobj fs)])])
      = [.jobj fs] := rfl
  refine ⟨?_, ?_, ?_, ?_⟩
  · simp [extractInterruptPayload, truthy, hc1, hscan]
  · simp [extractInterruptPayload, truthy, hc2, hscan]
  · simp [extractInterruptPayload, truthy, hc3, hscan]
  · simp [extractInterruptPayload, truthy, hc4, hscan]

/-- Witness for C7 at the concrete canonical approval payload. -/
theorem interrupt_extractor_location_independent_witness :
    isApprovalLike (.jobj [("kind", .jstr "approval_request"), ("question", .jstr "Approve?")]) = true
    ∧ getField (.jobj [("kind", .jstr "approval_request"), ("question", .jstr "Approve?")]) "value" = none
    ∧ extractInterruptPayload
        (.jobj [("__interrupt__", .jobj [("kind", .jstr "approval_request"), ("question", .jstr "Approve?")])])
      = some (.jobj [("kind", .jstr "approval_request"), ("question", .jstr "Approve?")])
    ∧ extractInterruptPayload
        (.jobj [("values", .jobj [("interrupts", .jobj [("kind", .jstr "approval_request"), ("question", .jstr "Approve?")])])])
      = some (.jobj [("kind", .jstr "approval_request"), ("question", .jstr "Approve?")]) := by
  refine ⟨rfl, rfl, ?_, ?_⟩
  · exact (interrupt_extractor_location_independent.2
      [("kind", .jstr "approval_request"), ("question", .jstr "Approve?")] rfl rfl).1
  · exact (interrupt_extractor_location_independent.2
      [("kind", .jstr "approval_request"), ("question", .jstr "Approve?")] rfl rfl).2.2.2

/-! ## Claim C6: updates frames carrying a stage-started marker -/

/-- Claim C6 (amended): for an `updates` frame whose object payload yields no
interrupt and carries a stage-started marker with a current-step value,
classification ends with `StepChanged` of that step, emits only
`StepChanged` facts (at most one extra from an embedded authoritative
`values.current_step`), and emits no log entry. -/
theorem updates_start_marker_step_changed (ui : UiState) (raw : JVal) (s : String)
    (hobj : isObjType raw = true)
    (hni : extractInterruptPayload raw = none)
    (hstep : pickCurrentStepFromUpdates raw = some s) :
    (handleSseEvent ui "updates" raw).getLast? = some (.stepChanged s)
    ∧ ∀ f ∈ handleSseEvent ui "updates" raw, ∃ r, f = .stepChanged r := by
  have hbranch : handleSseEvent ui "updates" raw =
      (if isObjType raw then
        (match stepFromValuesStrict raw with
         | some v => [UiFact.stepChanged v]
         | none => []) else []) ++ [.stepChanged s] := by
    simp [handleSseEvent, hobj, hni, hstep]
  rw [hbranch, hobj]
  cases hsf : stepFromValuesStrict raw with
  | none =>
    simp only [if_pos rfl]
    constructor
    · rfl
    · intro f hf
      simp at hf
      subst hf
      exact ⟨s, rfl⟩
  | some v =>
    simp only [if_pos rfl]
    constructor
    · rfl
    · intro f hf
      simp at hf
      rcases hf with hf | hf <;> (subst hf; exact ⟨_, rfl⟩)

/-- Witness for C6 (amended) at the spec's example frame
`event: updates`, `data: {"research_start":{"current_step":"research_agent"}}`. -/
theorem updates_start_marker_step_changed_witness :
    isObjType (JVal.jobj [("research_start", .jobj [("current_step", .jstr "research_agent")])]) = true
    ∧ extractInterruptPayload (JVal.jobj [("research_start", .jobj [("current_step", .jstr "research_agent")])]) = none
    ∧ pickCurrentStepFromUpdates (JVal.jobj [("research_start", .jobj [("current_step", .jstr "research_agent")])])
      = some "research_agent"
    ∧ (handleSseEvent .starting "updates"
        (JVal.jobj [("research_start", .jobj [("current_step", .jstr "research_agent")])])).getLast?
      = some (.stepChanged "research_agent") := by
  refine ⟨rfl, rfl, rfl, ?_⟩
  exact (updates_start_marker_step_changed .starting
    (JVal.jobj [("research_start", .jobj [("current_step", .jstr "research_agent")])])
    "research_agent" rfl rfl rfl).1

/-- Claim C6 counterexample: an `updates` frame whose payload carries both a
stage-started marker (`research_start.current_step = "research_agent"`) and
a qualifying interrupt emits no `StepChanged` fact and does emit a log
entry, because interrupt detection runs first. -/
theorem updates_frame_with_interrupt_counterexample :
    pickCurrentStepFromUpdates
      (JVal.jobj [("__interrupt__", .jarr [.jobj [("question", .jstr "Q")]]),
                  ("research_start", .jobj [("current_step", .jstr "research_agent")])])
      = some "research_agent"
    ∧ (handleSseEvent .starting "updates"
        (JVal.jobj [("__interrupt__", .jarr [.jobj [("question", .jstr "Q")]]),
                    ("research_start", .jobj [("current_step", .jstr "research_agent")])])).any
        isStepChangedFact = false
    ∧ (handleSseEvent .starting "updates"
        (JVal.jobj [("__interrupt__", .jarr [.jobj [("question", .jstr "Q")]]),
                    ("research_start", .jobj [("current_step", .jstr "research_agent")])])).any
        isLogEntryFact = true :=
  ⟨rfl, rfl, rfl⟩

/-! ## Claim C2: startup restoration of a persisted session identifier -/

/-- Claim C2 (amended): in the streaming variant, startup with a persisted
identifier polls its snapshot exactly once; a snapshot interrupt restores
`waiting_approval` with that interrupt and keeps the identifier in memory
and storage; otherwise (including a failed poll) the persisted identifier is
discarded and the client stays idle.  In the invoke variant, startup
restores the persisted identifier unconditionally: no snapshot poll, no
discarding, phase idle. -/
theorem startup_restore_policy :
    (∀ (saved : String) (t : JVal), saved ≠ "" →
       (FE.initAsync (.polled saved t)).polls = 1
       ∧ (∀ p, extractInterruptPayload t = some p →
            (FE.initAsync (.polled saved t)).uiState = .waiting_approval
            ∧ (FE.initAsync (.polled saved t)).interrupt = some p
            ∧ (FE.initAsync (.polled saved t)).threadId = some saved
            ∧ (FE.initAsync (.polled saved t)).stored = some saved)
       ∧ (extractInterruptPayload t = none →
            (FE.initAsync (.polled saved t)).stored = none
            ∧ (FE.initAsync (.polled saved t)).threadId = none
            ∧ (FE.initAsync (.polled saved t)).uiState = .idle))
    ∧ (∀ (saved msg : String), saved ≠ "" →
       (FE.initAsync (.pollFail saved msg)).polls = 1
       ∧ (FE.initAsync (.pollFail saved msg)).stored = none
       ∧ (FE.initAsync (.pollFail saved msg)).uiState = .idle)
    ∧ (∀ saved : String, saved ≠ "" →
       (LS.init (some saved)).threadId = some saved
       ∧ (LS.init (some saved)).stored = some saved
       ∧ (LS.init (some saved)).uiState = .idle
       ∧ (LS.init (some saved)).polls = 0) := by
  refine ⟨?_, ?_, ?_⟩
  · intro saved t hs
    refine ⟨?_, ?_, ?_⟩
    · simp only [FE.initAsync, if_neg hs]
      repeat' split
      all_goals rfl
    · intro p hp
      simp only [FE.initAsync, if_neg hs, hp]
      refine ⟨?_, ?_, ?_, ?_⟩ <;> first | trivial | (split <;> rfl)
    · intro hn
      simp only [FE.initAsync, if_neg hs, hn]
      refine ⟨?_, ?_, ?_⟩ <;> first | trivial | (split <;> rfl)
  · intro saved msg hs
    simp only [FE.initAsync, if_neg hs]
    refine ⟨?_, ?_, ?_⟩ <;> trivial
  · intro saved hs
    simp only [LS.init]
    rw [if_pos hs]
    exact ⟨rfl, rfl, rfl, rfl⟩

/-- Claim C2 counterexample: on startup with persisted identifier `"t0"`,
the invoke-variant client performs zero snapshot polls (not exactly one),
keeps the identifier in durable storage instead of discarding it, and stays
idle rather than restoring an awaiting-approval phase. -/
theorem ls_init_restores_without_poll :
    (LS.init (some "t0")).polls = 0
    ∧ ¬ (LS.init (some "t0")).polls = 1
    ∧ (LS.init (some "t0")).stored = some "t0"
    ∧ (LS.init (some "t0")).threadId = some "t0"
    ∧ (LS.init (some "t0")).uiState = .idle :=
  ⟨rfl, by decide, rfl, rfl, rfl⟩

/-- Witness for C2 (amended) at a concrete saved identifier, with an
interrupt-bearing and an interrupt-free snapshot. -/
theorem startup_restore_policy_witness :
    (FE.initAsync (.polled "t0" (.jobj [("__interrupt__", .jarr [.jobj [("question", .jstr "Q")]])]))).uiState
      = .waiting_approval
    ∧ (FE.initAsync (.polled "t0" (.jobj [("__interrupt__", .jarr [.jobj [("question", .jstr "Q")]])]))).polls = 1
    ∧ (FE.initAsync (.polled "t0" (.jobj [("values", .jobj [])]))).stored = none
    ∧ (FE.initAsync (.pollFail "t0" "boom")).stored = none
    ∧ (LS.init (some "t0")).stored = some "t0" := by
  refine ⟨?_, ?_, ?_, ?_, ?_⟩
  · exact ((startup_restore_policy.1 "t0"
      (.jobj [("__interrupt__", .jarr [.jobj [("question", .jstr "Q")]])]) (by decide)).2.1
      (.jobj [("question", .jstr "Q")]) rfl).1
  · exact (startup_restore_policy.1 "t0"
      (.jobj [("__interrupt__", .jarr [.jobj [("question", .jstr "Q")]])]) (by decide)).1
  · exact ((startup_restore_policy.1 "t0" (.jobj [("values", .jobj [])]) (by decide)).2.2 rfl).1
  · exact (startup_restore_policy.2.1 "t0" "boom" (by decide)).2.1
  · exact (startup_restore_policy.2.2 "t0" (by decide)).2.1

/-! ## Claim C1: session-identifier allocation policy -/

theorem LS.handleInvokeOut_lastReq (st : LS.St) (data : JVal) :
    (LS.handleInvokeOut st data).lastReqTid = st.lastReqTid := by
  simp only [LS.handleInvokeOut]
  repeat' split
  all_goals rfl

/-- Claim C1 (amended): in the streaming variant, every start opens the run
with the freshly server-created identifier — regardless of any held or
persisted one — and adopts it in memory and storage (so, granted server-side
uniqueness of created identifiers, it differs from every previously used
one); resume with a held identifier reuses exactly it, with no new
allocation.  In the invoke variant, resume likewise reuses the held
identifier, but start reuses a held (including persisted) identifier too,
allocating a fresh one only when none is held. -/
theorem thread_id_allocation_policy :
    (∀ (st : FE.St) (env : FE.NetEnv) (ctid : String), env.create = .ok ctid →
       (FE.start st env).lastReqTid = some ctid
       ∧ (FE.start st env).threadId = some ctid
       ∧ (FE.start st env).stored = some ctid)
    ∧ (∀ (st : FE.St) (d : String) (env : FE.NetEnv) (t : String),
       st.threadId = some t → t ≠ "" →
       (FE.resume st d env).lastReqTid = some t ∧ (FE.resume st d env).threadId = some t)
    ∧ (∀ (st : LS.St) (fresh : String) (res : LS.InvokeRes) (t : String),
       st.threadId = some t → t ≠ "" → (LS.start st fresh res).lastReqTid = some t)
    ∧ (∀ (st : LS.St) (fresh : String) (res : LS.InvokeRes),
       st.threadId = none → (LS.start st fresh res).lastReqTid = some fresh)
    ∧ (∀ (st : LS.St) (fresh d : String) (res : LS.InvokeRes) (t : String),
       st.threadId = some t → t ≠ "" → (LS.resume st fresh d res).lastReqTid = some t) := by
  refine ⟨?_, ?_, ?_, ?_, ?_⟩
  · intro st env ctid hc
    simp only [FE.start, FE.ensureThreadIdFromServerE, hc]
    split
    · rename_i msg heq
      split at heq <;> simp at heq
    · rename_i tid2 st2 heq
      split at heq
      · rename_i hcond
        exact (hcond.1 trivial).elim
      · simp only [Except.ok.injEq, Prod.mk.injEq] at heq
        obtain ⟨h1, h2⟩ := heq
        obtain ⟨ha, hb, hc2⟩ := FE.runStreamAndFinalize_ids3 FE.startNoReportText _ env
        refine ⟨?_, ?_, ?_⟩
        · rw [hc2, ← h1]
        · rw [ha, ← h2]
        · rw [hb, ← h2]
  · intro st d env t ht htne
    simp only [FE.resume, FE.ensureThreadIdFromServerE]
    split
    · rename_i msg heq
      split at heq
      · simp at heq
      · rename_i hcond
        exfalso
        apply hcond
        refine ⟨by simp, ?_⟩
        have hth : (FE.resetViewForRun st).threadId = some t := ht
        rw [hth]
        simpa using htne
    · rename_i tid2 st2 heq
      split at heq
      · simp only [Except.ok.injEq, Prod.mk.injEq] at heq
        obtain ⟨h1, h2⟩ := heq
        have hth : (FE.resetViewForRun st).threadId = some t := ht
        rw [hth] at h1
        simp only [Option.getD_some] at h1
        obtain ⟨ha, hb, hc2⟩ := FE.runStreamAndFinalize_ids3 FE.resumeNoReportText _ env
        refine ⟨?_, ?_⟩
        · rw [hc2, ← h1]
        · rw [ha, ← h2]
          exact ht
      · rename_i hcond
        exfalso
        apply hcond
        refine ⟨by simp, ?_⟩
        have hth : (FE.resetViewForRun st).threadId = some t := ht
        rw [hth]
        simpa using htne
  · intro st fresh res t ht htne
    simp only [LS.start, LS.ensureThreadId, LS.resetViewForRun, ht]
    rw [if_pos htne]
    cases res with
    | fail msg => rfl
    | ok data => rw [LS.handleInvokeOut_lastReq]
  · intro st fresh res ht
    simp only [LS.start, LS.ensureThreadId, LS.resetViewForRun, ht]
    cases res with
    | fail msg => rfl
    | ok data => rw [LS.handleInvokeOut_lastReq]
  · intro st fresh d res t ht htne
    simp only [LS.resume, LS.resetViewForRun, ht]
    rw [if_pos htne, if_neg (by simpa using htne)]
    cases res with
    | fail msg => rfl
    | ok data => rw [LS.handleInvokeOut_lastReq]

/-- Claim C1 counterexample: in the invoke variant, a start issued while the
persisted identifier `"t0"` is restored sends `"t0"` again — the previously
used identifier — and performs no fresh allocation. -/
theorem ls_start_reuses_persisted_id :
    (LS.init (some "t0")).threadId = some "t0"
    ∧ (LS.start (LS.init (some "t0")) "fresh-uuid" (.fail "network error")).lastReqTid = some "t0"
    ∧ (LS.start (LS.init (some "t0")) "fresh-uuid" (.fail "network error")).threadId = some "t0"
    ∧ ("t0" : String) ≠ "fresh-uuid" :=
  ⟨rfl, rfl, rfl, by decide⟩

/-- Witness for C1 (amended): a streaming-variant start holding `"OLD"`
opens the run with the newly created `"NEW"`; both variants' resumes reuse
the held identifier; an invoke-variant start without a held identifier uses
the fresh one. -/
theorem thread_id_allocation_policy_witness :
    (FE.start { FE.initBase none with threadId := some "OLD", stored := some "OLD" }
        ⟨.ok "NEW", [], none, .error "x"⟩).lastReqTid = some "NEW"
    ∧ (FE.resume { FE.initBase none with threadId := some "OLD" } "y"
        ⟨.ok "NEW", [], none, .error "x"⟩).lastReqTid = some "OLD"
    ∧ (LS.start { (LS.init none) with threadId := some "OLD" } "FRESH" (.fail "x")).lastReqTid
      = some "OLD"
    ∧ (LS.start (LS.init none) "FRESH" (.fail "x")).lastReqTid = some "FRESH"
    ∧ (LS.resume { (LS.init none) with threadId := some "OLD" } "FRESH" "y" (.fail "x")).lastReqTid
      = some "OLD" := by
  refine ⟨?_, ?_, ?_, ?_, ?_⟩
  · exact (thread_id_allocation_policy.1
      { FE.initBase none with threadId := some "OLD", stored := some "OLD" }
      ⟨.ok "NEW", [], none, .error "x"⟩ "NEW" rfl).1
  · exact (thread_id_allocation_policy.2.1
      { FE.initBase none with threadId := some "OLD" } "y"
      ⟨.ok "NEW", [], none, .error "x"⟩ "OLD" rfl (by decide)).1
  · exact thread_id_allocation_policy.2.2.1
      { (LS.init none) with threadId := some "OLD" } "FRESH" (.fail "x") "OLD" rfl (by decide)
  · exact thread_id_allocation_policy.2.2.2.1 (LS.init none) "FRESH" (.fail "x") rfl
  · exact thread_id_allocation_policy.2.2.2.2
      { (LS.init none) with threadId := some "OLD" } "FRESH" "y" (.fail "x") "OLD" rfl (by decide)

/-! ## Claim C9: failures reach `error` with the session identifier intact -/

theorem FE.runStreamAndFinalize_err_stream (nr : String) (st : FE.St) (env : FE.NetEnv)
    (msg : String) (hse : env.streamErr = some msg) :
    (FE.runStreamAndFinalize nr st env).uiState = .error := by
  simp only [FE.runStreamAndFinalize, hse]
  rfl

theorem FE.runStreamAndFinalize_err_poll (nr : String) (st : FE.St) (env : FE.NetEnv)
    (msg : String) (hse : env.streamErr = none) (hp : env.poll = .error msg) :
    (FE.runStreamAndFinalize nr st env).uiState = .error := by
  simp only [FE.runStreamAndFinalize, hse, hp]
  rfl

/-- Claim C9: every start/resume operation failing with a transport error or
malformed response (a failed thread create, a failed or aborted stream, a
failed snapshot poll, a failed invoke call) transitions the machine to the
`error` phase while leaving the session identifier — in memory and durable
storage — exactly as the operation had it, so a retry can reuse it; only the
explicit clear operation sets the identifier to none. -/
theorem error_preserves_thread_id :
    (∀ (st : FE.St) (env : FE.NetEnv) (msg : String), env.create = .error msg →
       (FE.start st env).uiState = .error
       ∧ (FE.start st env).threadId = st.threadId ∧ (FE.start st env).stored = st.stored)
    ∧ (∀ (st : FE.St) (env : FE.NetEnv) (ctid msg : String), env.create = .ok ctid →
       env.streamErr = some msg →
       (FE.start st env).uiState = .error
       ∧ (FE.start st env).threadId = some ctid ∧ (FE.start st env).stored = some ctid)
    ∧ (∀ (st : FE.St) (env : FE.NetEnv) (ctid msg : String), env.create = .ok ctid →
       env.streamErr = none → env.poll = .error msg →
       (FE.start st env).uiState = .error
       ∧ (FE.start st env).threadId = some ctid ∧ (FE.start st env).stored = some ctid)
    ∧ (∀ (st : FE.St) (d : String) (env : FE.NetEnv) (t msg : String),
       st.threadId = some t → t ≠ "" → env.streamErr = some msg →
       (FE.resume st d env).uiState = .error
       ∧ (FE.resume st d env).threadId = some t ∧ (FE.resume st d env).stored = st.stored)
    ∧ (∀ (st : FE.St) (d : String) (env : FE.NetEnv) (t msg : String),
       st.threadId = some t → t ≠ "" → env.streamErr = none → env.poll = .error msg →
       (FE.resume st d env).uiState = .error ∧ (FE.resume st d env).threadId = some t)
    ∧ (∀ st : FE.St, (FE.clearAll st).threadId = none ∧ (FE.clearAll st).stored = none)
    ∧ (∀ (st : LS.St) (fresh msg t : String), st.threadId = some t → t ≠ "" →
       (LS.start st fresh (.fail msg)).uiState = .error
       ∧ (LS.start st fresh (.fail msg)).threadId = some t
       ∧ (LS.start st fresh (.fail msg)).stored = st.stored)
    ∧ (∀ (st : LS.St) (fresh d msg t : String), st.threadId = some t → t ≠ "" →
       (LS.resume st fresh d (.fail msg)).uiState = .error
       ∧ (LS.resume st fresh d (.fail msg)).threadId = some t)
    ∧ (∀ st : LS.St, (LS.clearAll st).threadId = none ∧ (LS.clearAll st).stored = none) := by
  refine ⟨?_, ?_, ?_, ?_, ?_, ?_, ?_, ?_, ?_⟩
  · intro st env msg hc
    simp only [FE.start, FE.ensureThreadIdFromServerE, hc]
    rw [if_neg (fun h => h.1 trivial)]
    exact ⟨rfl, rfl, rfl⟩
  · intro st env ctid msg hc hse
    simp only [FE.start, FE.ensureThreadIdFromServerE, hc]
    split
    · rename_i m heq
      split at heq <;> simp at heq
    · rename_i tid2 st2 heq
      split at heq
      · rename_i hcond
        exact (hcond.1 trivial).elim
      · simp only [Except.ok.injEq, Prod.mk.injEq] at heq
        obtain ⟨h1, h2⟩ := heq
        obtain ⟨ha, hb, _⟩ := FE.runStreamAndFinalize_ids3 FE.startNoReportText _ env
        refine ⟨FE.runStreamAndFinalize_err_stream _ _ _ msg hse, ?_, ?_⟩
        · rw [ha, ← h2]
        · rw [hb, ← h2]
  · intro st env ctid msg hc hse hp
    simp only [FE.start, FE.ensureThreadIdFromServerE, hc]
    split
    · rename_i m heq
      split at heq <;> simp at heq
    · rename_i tid2 st2 heq
      split at heq
      · rename_i hcond
        exact (hcond.1 trivial).elim
      · simp only [Except.ok.injEq, Prod.mk.injEq] at heq
        obtain ⟨h1, h2⟩ := heq
        obtain ⟨ha, hb, _⟩ := FE.runStreamAndFinalize_ids3 FE.startNoReportText _ env
        refine ⟨FE.runStreamAndFinalize_err_poll _ _ _ msg hse hp, ?_, ?_⟩
        · rw [ha, ← h2]
        · rw [hb, ← h2]
  · intro st d env t msg ht htne hse
    simp only [FE.resume, FE.ensureThreadIdFromServerE]
    split
    · rename_i m heq
      split at heq
      · simp at heq
      · rename_i hcond
        exfalso
        apply hcond
        refine ⟨by simp, ?_⟩
        have hth : (FE.resetViewForRun st).threadId = some t := ht
        rw [hth]
        simpa using htne
    · rename_i tid2 st2 heq
      split at heq
      · simp only [Except.ok.injEq, Prod.mk.injEq] at heq
        obtain ⟨h1, h2⟩ := heq
        obtain ⟨ha, hb, _⟩ := FE.runStreamAndFinalize_ids3 FE.resumeNoReportText _ env
        refine ⟨FE.runStreamAndFinalize_err_stream _ _ _ msg hse, ?_, ?_⟩
        · rw [ha, ← h2]
          exact ht
        · rw [hb, ← h2]
          rfl
      · rename_i hcond
        exfalso
        apply hcond
        refine ⟨by simp, ?_⟩
        have hth : (FE.resetViewForRun st).threadId = some t := ht
        rw [hth]
        simpa using htne
  · intro st d env t msg ht htne hse hp
    simp only [FE.resume, FE.ensureThreadIdFromServerE]
    split
    · rename_i m heq
      split at heq
      · simp at heq
      · rename_i hcond
        exfalso
        apply hcond
        refine ⟨by simp, ?_⟩
        have hth : (FE.resetViewForRun st).threadId = some t := ht
        rw [hth]
        simpa using htne
    · rename_i tid2 st2 heq
      split at heq
      · simp only [Except.ok.injEq, Prod.mk.injEq] at heq
        obtain ⟨h1, h2⟩ := heq
        obtain ⟨ha, _, _⟩ := FE.runStreamAndFinalize_ids3 FE.resumeNoReportText _ env
        refine ⟨FE.runStreamAndFinalize_err_poll _ _ _ msg hse hp, ?_⟩
        rw [ha, ← h2]
        exact ht
      · rename_i hcond
        exfalso
        apply hcond
        refine ⟨by simp, ?_⟩
        have hth : (FE.resetViewForRun st).threadId = some t := ht
        rw [hth]
        simpa using htne
  · intro st
    exact ⟨rfl, rfl⟩
  · intro st fresh msg t ht htne
    simp only [LS.start, LS.ensureThreadId, LS.resetViewForRun, ht]
    rw [if_pos htne]
    exact ⟨rfl, rfl, rfl⟩
  · intro st fresh d msg t ht htne
    simp only [LS.resume, LS.resetViewForRun, ht]
    rw [if_pos htne, if_neg (by simpa using htne)]
    exact ⟨rfl, rfl⟩
  · intro st
    exact ⟨rfl, rfl⟩

/-- Witness for C9: a streaming start whose stream aborts ends in `error`
with the freshly created identifier intact; an invoke-variant resume whose
call fails keeps the held identifier; clears set it to none. -/
theorem error_preserves_thread_id_witness :
    (FE.start (FE.initBase none) ⟨.ok "T", [], some "aborted", .error "x"⟩).uiState = .error
    ∧ (FE.start (FE.initBase none) ⟨.ok "T", [], some "aborted", .error "x"⟩).threadId = some "T"
    ∧ (LS.resume { (LS.init none) with threadId := some "T" } "F" "y" (.fail "net")).uiState = .error
    ∧ (LS.resume { (LS.init none) with threadId := some "T" } "F" "y" (.fail "net")).threadId = some "T"
    ∧ (FE.clearAll (FE.initBase (some "T"))).threadId = none := by
  refine ⟨?_, ?_, ?_, ?_, ?_⟩
  · exact (error_preserves_thread_id.2.1 (FE.initBase none)
      ⟨.ok "T", [], some "aborted", .error "x"⟩ "T" "aborted" rfl rfl).1
  · exact (error_preserves_thread_id.2.1 (FE.initBase none)
      ⟨.ok "T", [], some "aborted", .error "x"⟩ "T" "aborted" rfl rfl).2.1
  · exact (error_preserves_thread_id.2.2.2.2.2.2.2.1
      { (LS.init none) with threadId := some "T" } "F" "y" "net" "T" rfl (by decide)).1
  · exact (error_preserves_thread_id.2.2.2.2.2.2.2.1
      { (LS.init none) with threadId := some "T" } "F" "y" "net" "T" rfl (by decide)).2
  · exact (error_preserves_thread_id.2.2.2.2.2.1 (FE.initBase (some "T"))).1

/-! ## Claim C4: chunk-boundary independence of the Frame Decoder -/

/-- Claim C4 (amended): for every logical SSE body free of carriage-return
characters, every way of splitting the body into an ordered sequence of
chunks makes the Frame Decoder produce the same ordered sequence of Protocol
Frames (and the same final buffered remainder): both equal the frames of the
whole body, so no frame is re-ordered, duplicated, or lost at chunk
boundaries; empty delimited blocks are dropped inside `extractLoopF` in
every case alike.  (Bodies containing `"\r\r\n"` are genuinely
chunk-dependent — see the counterexample.) -/
theorem frame_decoder_chunk_independent (jp : String → Option JVal)
    (body : List Char) (c1 c2 : List (List Char))
    (hcr : '\r' ∉ body) (h1 : c1.flatten = body) (h2 : c2.flatten = body) :
    (runStream jp [] c1).1 = (runStream jp [] c2).1 := by
  have hchunks : ∀ (cs : List (List Char)), cs.flatten = body →
      runStream jp [] cs = extractLoop jp body := by
    intro cs hcs
    have hall : ∀ c ∈ cs, '\r' ∉ c := by
      intro c hc hmem
      exact hcr (hcs ▸ List.mem_flatten.mpr ⟨c, hc, hmem⟩)
    have := runStream_eq_extractLoop jp cs [] (by simp) hall rfl
    rw [this, List.nil_append, hcs]
  rw [hchunks c1 h1, hchunks c2 h2]

/-- Claim C4 counterexample: the logical body `"a\n\r\r\nb"` delivered as a
single chunk produces no frame, while the same body split as
`["a\n\r\r\n", "b"]` produces one frame — the decoder re-normalizes the
already-normalized buffer on each chunk arrival, so a buffered `"\r\n"`
(left over from `"\r\r\n"`) collapses into a frame delimiter only when a
further chunk arrives. -/
theorem frame_decoder_chunking_counterexample :
    ("a\n\r\r\n".toList ++ "b".toList) = "a\n\r\r\nb".toList
    ∧ (runStream (fun _ => none) [] ["a\n\r\r\nb".toList]).1.length = 0
    ∧ (runStream (fun _ => none) [] ["a\n\r\r\n".toList, "b".toList]).1.length = 1 :=
  ⟨rfl, rfl, rfl⟩

/-- Witness for C4 (amended) on a concrete CR-free body split two ways. -/
theorem frame_decoder_chunk_independent_witness :
    ('\r' ∉ "event: updates\ndata: 1\n\nrest".toList)
    ∧ (["event: up".toList, "dates\ndata: 1\n\nrest".toList] : List (List Char)).flatten
      = "event: updates\ndata: 1\n\nrest".toList
    ∧ (runStream (fun _ => none) [] ["event: updates\ndata: 1\n\nrest".toList]).1
      = (runStream (fun _ => none) [] ["event: up".toList, "dates\ndata: 1\n\nrest".toList]).1 := by
  refine ⟨by decide, by decide, ?_⟩
  exact frame_decoder_chunk_independent (fun _ => none) "event: updates\ndata: 1\n\nrest".toList
    ["event: updates\ndata: 1\n\nrest".toList]
    ["event: up".toList, "dates\ndata: 1\n\nrest".toList]
    (by decide) (by decide) (by decide)
